import Mathlib

/-
Shallow embedding of `src/language.py` (a Streamlit app that paginates LLM
responses and records 1-5 scores).  Two cores are embedded:

* the Pager: the page-to-row-index arithmetic (lines 62-112 of the source),
* the Score Ledger: the session state (`scores_dict`, `all_scores`,
  `saved_pages`, `current_page`) and the two save handlers plus the
  rendering loop's score recording (lines 100-247 of the source).

Python `dict` is modelled by an insertion-ordered association list (Python
dicts preserve insertion order; updating an existing key keeps its slot),
`set` by a list used only through membership, and the `st.success` /
`st.error` / `st.info` feedback by a message-kind tag.
-/

/-! ## Pager (source lines 62-112) -/

/-- `interval = 5` (source line 63). -/
def interval : Nat := 5

/-- `responses_per_page = 4` (source line 64). -/
def responses_per_page : Nat := 4

/-- `total_pattern_sets = filled_groups + (1 if remaining_rows > 0 else 0)`
(source lines 72-76). -/
def total_pattern_sets (total_rows : Nat) : Nat :=
  total_rows / interval + (if total_rows % interval > 0 then 1 else 0)

/-- `total_pages = pattern_groups * total_pattern_sets if total_pattern_sets > 0
else pattern_groups` with `pattern_groups = interval` (source lines 70, 78). -/
def total_pages (total_rows : Nat) : Nat :=
  if total_pattern_sets total_rows > 0 then
    interval * total_pattern_sets total_rows
  else
    interval

/-- `pattern_idx = current_page % pattern_groups` (source line 85). -/
def pattern_idx (page : Nat) : Nat := page % interval

/-- `pattern_set = current_page // pattern_groups` (source line 86). -/
def pattern_set (page : Nat) : Nat := page / interval

/-- `row_idx = pattern_idx + (pattern_set * interval * responses_per_page) +
(col_idx * interval)` (source line 105). -/
def rowIdxFor (page col_idx : Nat) : Nat :=
  pattern_idx page + pattern_set page * interval * responses_per_page +
    col_idx * interval

/-- The `for col_idx in range(responses_per_page)` loop of source lines
100-112: emit `row_idx` for each column, `break` at the first column whose
`row_idx >= total_rows`. -/
def pageIndicesGo (page total_rows : Nat) : List Nat → List Nat
  | [] => []
  | c :: cs =>
    if rowIdxFor page c ≥ total_rows then []
    else rowIdxFor page c :: pageIndicesGo page total_rows cs

/-- `current_page_indices` accumulated by the rendering loop
(source lines 96, 112). -/
def current_page_indices (page total_rows : Nat) : List Nat :=
  pageIndicesGo page total_rows (List.range responses_per_page)

/-- `displayed_responses` after the rendering loop (source lines 99, 154):
one response is displayed per emitted row index. -/
def displayedResponses (page total_rows : Nat) : Nat :=
  (current_page_indices page total_rows).length

/-- Whether the `"No responses to display on this page."` warning is shown
(source lines 156-157). -/
def noResponsesWarning (page total_rows : Nat) : Bool :=
  displayedResponses page total_rows == 0

/-- All row indices emitted across pages `0 .. total_pages-1`, concatenated
in page order. -/
def allEmitted (total_rows : Nat) : List Nat :=
  ((List.range (total_pages total_rows)).map
    (fun p => current_page_indices p total_rows)).flatten

/-- The unique page on which dataset row `a` is emitted:
inverting `rowIdxFor`, the column is `a / interval % responses_per_page`
and the page is below. -/
def pageOf (a : Nat) : Nat :=
  interval * (a / interval / responses_per_page) + a % interval

/-! ## Score Ledger (source lines 9-14, 143-152, 161-247) -/

/-- One score record as built at source lines 146-152. -/
structure ScoreEntry where
  row_index : Nat
  question_id : String
  llm : String
  score : Nat
  page : Nat
deriving DecidableEq, Repr

/-- `st.session_state`: the mutable session fields the handlers touch
(source lines 9-14). -/
structure AppState where
  scores_dict : List (Nat × ScoreEntry)
  all_scores : List ScoreEntry
  saved_pages : List Nat
  current_page : Nat
deriving DecidableEq, Repr

/-- The user-visible kind of the save handlers' feedback: `st.success`,
`st.error` or `st.info`. -/
inductive MsgKind where
  | success
  | errorMsg
  | infoMsg
deriving DecidableEq, Repr

/-- `st.session_state.scores_dict[row_idx] = {...}` (source lines 143-152):
Python dict upsert, updating an existing key in place (keeping its slot in
insertion order) or appending a new key at the end. -/
def dictInsert (r : Nat) (e : ScoreEntry) :
    List (Nat × ScoreEntry) → List (Nat × ScoreEntry)
  | [] => [(r, e)]
  | (k, v) :: rest =>
    if k = r then (r, e) :: rest else (k, v) :: dictInsert r e rest

/-- Python `scores_dict[row_idx]` guarded by `row_idx in scores_dict`. -/
def dictLookup (r : Nat) : List (Nat × ScoreEntry) → Option ScoreEntry
  | [] => none
  | (k, v) :: rest => if k = r then some v else dictLookup r rest

/-- `saved_pages.add(p)` on the Python set, modelled up to membership. -/
def insertPage (p : Nat) (sp : List Nat) : List Nat :=
  if p ∈ sp then sp else p :: sp

/-- The upsert into `all_scores` shared by both save handlers (source lines
186-196 and 228-238): scan for the first item with `row_index == r`, replace
it in place, else append; also report whether a replacement happened
(`row_already_saved`).  Every item in `all_scores` is built by source lines
146-152 and hence carries a `row_index` field, so the Python guard
`"row_index" in item` is always true. -/
def upsertScore (r : Nat) (e : ScoreEntry) :
    List ScoreEntry → List ScoreEntry × Bool
  | [] => ([e], false)
  | item :: rest =>
    if item.row_index = r then (e :: rest, true)
    else
      let res := upsertScore r e rest
      (item :: res.1, res.2)

/-- The `for row_idx in current_page_indices` loop of the per-page save
handler (source lines 181-198): for each index with a recorded entry, upsert
it into `all_scores` and collect it into `scores_to_save`; returns the new
`all_scores` and `len(scores_to_save)`. -/
def savePageLoop (dict : List (Nat × ScoreEntry)) :
    List Nat → List ScoreEntry → List ScoreEntry × Nat
  | [], acc => (acc, 0)
  | r :: rs, acc =>
    match dictLookup r dict with
    | none => savePageLoop dict rs acc
    | some data =>
      let up := upsertScore r data acc
      let rec_ := savePageLoop dict rs up.1
      (rec_.1, rec_.2 + 1)

/-- The `"Save All Scores on Page"` handler (source lines 177-209): upsert
the current page's recorded entries, mark the page saved, and report
`st.success` when anything was collected, else the `"No scores to save."`
`st.error`.  Returns the new state, the reported count and the message
kind. -/
def savePageHandler (total_rows : Nat) (s : AppState) :
    AppState × Nat × MsgKind :=
  let indices := current_page_indices s.current_page total_rows
  let res := savePageLoop s.scores_dict indices s.all_scores
  ({ s with
      all_scores := res.1,
      saved_pages := insertPage s.current_page s.saved_pages },
   res.2,
   if res.2 > 0 then MsgKind.success else MsgKind.errorMsg)

/-- The `for row_idx, data in scores_dict.items()` loop of the
`"Save All Remaining Scores"` handler (source lines 224-242), iterating the
dict in insertion order: for each entry whose `page` is in the
`current_unsaved_pages` snapshot, upsert into `all_scores`, increment
`newly_saved` ONLY when the entry was appended (not when replaced in
place), and add its page to `saved_pages`. -/
def saveAllLoop (unsaved : List Nat) :
    List (Nat × ScoreEntry) → List ScoreEntry → List Nat →
      List ScoreEntry × List Nat × Nat
  | [], acc, sp => (acc, sp, 0)
  | (r, data) :: rest, acc, sp =>
    if data.page ∈ unsaved then
      let up := upsertScore r data acc
      let sp2 := insertPage data.page sp
      let rec_ := saveAllLoop unsaved rest up.1 sp2
      (rec_.1, rec_.2.1, if up.2 then rec_.2.2 else rec_.2.2 + 1)
    else
      saveAllLoop unsaved rest acc sp

/-- The `"Save All Remaining Scores"` handler (source lines 218-247):
`current_unsaved_pages = set(range(total_pages)) - saved_pages` is computed
once, then the dict is walked; reports `st.success` with `newly_saved` when
positive, else the `"No unsaved scores to save."` `st.info`. -/
def saveAllHandler (total_rows : Nat) (s : AppState) :
    AppState × Nat × MsgKind :=
  let unsaved := (List.range (total_pages total_rows)).filter
    (fun p => decide (p ∉ s.saved_pages))
  let res := saveAllLoop unsaved s.scores_dict s.all_scores s.saved_pages
  ({ s with all_scores := res.1, saved_pages := res.2.1 },
   res.2.2,
   if res.2.2 > 0 then MsgKind.success else MsgKind.infoMsg)

/-- The entry stored by the rendering loop for row `r` (source lines
146-152): `question_id` and `llm` come from the dataset row, `score` from
the slider, `page` is the current page. -/
def renderEntry (page r : Nat) (qidOf llmOf : Nat → String)
    (scoreOf : Nat → Nat) : ScoreEntry :=
  { row_index := r, question_id := qidOf r, llm := llmOf r,
    score := scoreOf r, page := page }

/-- The score-recording effect of the rendering loop (source lines 100-154):
for every emitted row index, `scores_dict[row_idx]` is set to the entry for
that row.  The dataset and the slider values are abstracted as functions of
the row index. -/
def renderPage (total_rows : Nat) (qidOf llmOf : Nat → String)
    (scoreOf : Nat → Nat) (s : AppState) : AppState :=
  let d2 := (current_page_indices s.current_page total_rows).foldl
    (fun d r =>
      dictInsert r (renderEntry s.current_page r qidOf llmOf scoreOf) d)
    s.scores_dict
  { s with scores_dict := d2 }

/-- `if st.session_state.current_page >= total_pages:
st.session_state.current_page = 0` (source lines 81-82). -/
def clampPage (page total_rows : Nat) : Nat :=
  if page ≥ total_pages total_rows then 0 else page

/-- The `"Previous Page"` action (source lines 164-168): offered only when
`current_page > 0`; decrements. -/
def prevPage (page : Nat) : Nat :=
  if page > 0 then page - 1 else page

/-- The `"Next Page"` action (source lines 211-215): offered only when
`current_page < total_pages - 1`; increments. -/
def nextPage (page total_rows : Nat) : Nat :=
  if page < total_pages total_rows - 1 then page + 1 else page

/-- Keys of the exportable ledger: the `row_index` identity used by both
save handlers. -/
def ledgerKeys (l : List ScoreEntry) : List Nat :=
  l.map (fun e => e.row_index)

/-- Well-formedness of `scores_dict` as the rendering loop builds it
(source lines 143-152): the entry stored under key `r` has
`row_index = r`. -/
def DictWF (d : List (Nat × ScoreEntry)) : Prop :=
  ∀ p ∈ d, (p.2).row_index = p.1

/-- The single-row score-recording effect of source lines 143-152
(`st.session_state.scores_dict[row_idx] = {...}`), the "record" operation
of the ledger. -/
def recordScore (r : Nat) (e : ScoreEntry) (s : AppState) : AppState :=
  { s with scores_dict := dictInsert r e s.scores_dict }

/-- The session state right after initialization (source lines 9-14). -/
def initialState : AppState :=
  { scores_dict := [], all_scores := [], saved_pages := [], current_page := 0 }

/-- A sample entry for row `r` with score `sc`, as the rendering loop would
build it on page 0 for a dataset row with `question_id = "Q1"`,
`llm = "gpt"`. -/
def sampleEntry (r sc : Nat) : ScoreEntry :=
  { row_index := r, question_id := "Q1", llm := "gpt", score := sc, page := 0 }

/-- The user interactions that mutate the session state, each a full
recomputation pass of the script: rendering a page (which records scores
for every displayed row), the two save buttons, the two navigation buttons
and the page clamp. -/
inductive AppOp where
  | render (qidOf llmOf : Nat → String) (scoreOf : Nat → Nat)
  | savePage
  | saveAll
  | goPrev
  | goNext
  | clampOp

/-- One state transition of the app. -/
def applyOp (total_rows : Nat) (op : AppOp) (s : AppState) : AppState :=
  match op with
  | .render qidOf llmOf scoreOf => renderPage total_rows qidOf llmOf scoreOf s
  | .savePage => (savePageHandler total_rows s).1
  | .saveAll => (saveAllHandler total_rows s).1
  | .goPrev => { s with current_page := prevPage s.current_page }
  | .goNext => { s with current_page := nextPage s.current_page total_rows }
  | .clampOp => { s with current_page := clampPage s.current_page total_rows }

/-- The state after an arbitrary interaction sequence from startup. -/
def runOps (total_rows : Nat) (ops : List AppOp) : AppState :=
  ops.foldl (fun s op => applyOp total_rows op s) initialState

/-- The session invariant: the working dict stores each entry under its own
`row_index`, and the exportable ledger has no duplicate identity keys. -/
def SessionInv (s : AppState) : Prop :=
  DictWF s.scores_dict ∧ (ledgerKeys s.all_scores).Nodup

/-- Counterexample state for the save-all count: row 0 was already exported
with score 4, the working dict holds score 2 for it, and no page is marked
saved. -/
def cexState : AppState :=
  { scores_dict := [(0, sampleEntry 0 2)],
    all_scores := [sampleEntry 0 4],
    saved_pages := [],
    current_page := 0 }

/-! ## Pager lemmas -/

/-- The break-at-first-overflow loop is the takeWhile of the mapped row
indices, for any column list. -/
lemma pageIndicesGo_eq_takeWhile (p t : Nat) (l : List Nat) :
    pageIndicesGo p t l =
      (l.map (rowIdxFor p)).takeWhile (fun r => decide (r < t)) := by
  induction l with
  | nil => rfl
  | cons c cs ih =>
    simp only [pageIndicesGo, List.map_cons, List.takeWhile_cons]
    by_cases h : rowIdxFor p c < t
    · rw [if_neg (by omega), ih]
      simp [h]
    · rw [if_pos (by omega)]
      simp [h]

/-- Every emitted index is below `total_rows`. -/
lemma mem_pageIndicesGo_lt {p t i : Nat} :
    ∀ {l : List Nat}, i ∈ pageIndicesGo p t l → i < t := by
  intro l
  induction l with
  | nil => intro h; simp [pageIndicesGo] at h
  | cons c cs ih =>
    intro h
    simp only [pageIndicesGo] at h
    by_cases hc : t ≤ rowIdxFor p c
    · rw [if_pos hc] at h
      simp at h
    · rw [if_neg hc] at h
      rcases List.mem_cons.mp h with h1 | h2
      · omega
      · exact ih h2

/-- Counting one value in a page: row `a` occurs on page `p` exactly when
`a < total_rows` and `p` is `a`'s unique page. -/
lemma count_current_page (p t a : Nat) :
    (current_page_indices p t).count a =
      if a < t ∧ p = pageOf a then 1 else 0 := by
  have hrange : List.range responses_per_page = [0, 1, 2, 3] := rfl
  unfold current_page_indices
  rw [hrange]
  simp only [pageIndicesGo, rowIdxFor, pattern_idx, pattern_set, pageOf,
    interval, responses_per_page]
  split_ifs <;>
    simp_all [List.count_cons, List.count_nil] <;>
    first
      | omega
      | (split_ifs <;> omega)

/-- Counting over a concatenation of lists. -/
lemma count_flatten_eq_sum (a : Nat) :
    ∀ L : List (List Nat),
      L.flatten.count a = (L.map (fun l => l.count a)).sum := by
  intro L
  induction L with
  | nil => rfl
  | cons l ls ih => simp [List.count_append, ih]

/-- Summing the indicator of one page over `range N`. -/
lemma sum_indicator_range (N p0 : Nat) :
    ((List.range N).map (fun p => if p = p0 then 1 else 0)).sum =
      if p0 < N then 1 else 0 := by
  induction N with
  | zero => simp
  | succ n ih =>
    rw [List.range_succ]
    simp only [List.map_append, List.sum_append, List.map_cons,
      List.map_nil, List.sum_cons, List.sum_nil, ih]
    split_ifs <;> omega

/-- A row below `total_rows` lives on a valid page. -/
lemma pageOf_lt_total_pages {a t : Nat} (h : a < t) :
    pageOf a < total_pages t := by
  simp only [pageOf, total_pages, total_pattern_sets, interval,
    responses_per_page]
  split_ifs <;> omega

/-- Each row index below `total_rows` is emitted exactly once across the
full page range; nothing else is emitted. -/
lemma count_allEmitted (t a : Nat) :
    (allEmitted t).count a = if a < t then 1 else 0 := by
  unfold allEmitted
  rw [count_flatten_eq_sum]
  rw [List.map_map]
  simp only [Function.comp_def, count_current_page]
  by_cases h : a < t
  · simp only [h, true_and, if_true]
    rw [sum_indicator_range, if_pos (pageOf_lt_total_pages h)]
  · simp only [h, false_and, if_false]
    have hz : ∀ l : List Nat, (l.map (fun _ => (0 : Nat))).sum = 0 := by
      intro l
      induction l with
      | nil => rfl
      | cons x xs ih => simp [ih]
    exact hz _

/-- Positivity of the page count (the `else pattern_groups` clamp keeps it
at `interval` even for an empty dataset). -/
lemma total_pages_pos (t : Nat) : 0 < total_pages t := by
  simp only [total_pages, total_pattern_sets, interval]
  split_ifs <;> omega

/-! ## Claim theorems: Pager -/

/-- Claim C1, counterexample: with `total_rows = 6` the row indices emitted
across the full page range, concatenated in page order, are
`[0, 5, 1, 2, 3, 4]`.  This is not equal to the sequence `0..5` and is not
strictly increasing (page 0 emits 5 before page 1 emits 1), so the claim as
stated is false. -/
theorem c1_counterexample :
    allEmitted 6 = [0, 5, 1, 2, 3, 4] ∧
    allEmitted 6 ≠ List.range 6 ∧
    ¬ List.Pairwise (fun x y => x < y) (allEmitted 6) := by
  refine ⟨by decide, by decide, ?_⟩
  have h : allEmitted 6 = [0, 5, 1, 2, 3, 4] := by decide
  rw [h]
  decide

/-- Claim C1, amended: the row indices emitted across pages
`0..total_pages-1`, concatenated in page order, form a permutation of
`0..total_rows-1` - every dataset row appears exactly once, with no gaps
and no repeats - although the concatenation is not ordered increasingly
across pages. -/
theorem c1_amended_allEmitted_perm (t : Nat) :
    (allEmitted t).Perm (List.range t) := by
  rw [List.perm_iff_count]
  intro a
  rw [count_allEmitted]
  by_cases h : a < t
  · rw [if_pos h,
      List.count_eq_one_of_mem (List.nodup_range t) (List.mem_range.mpr h)]
  · rw [if_neg h,
      List.count_eq_zero_of_not_mem (by simpa using h)]

/-- Claim C4: for `total_rows ≥ 1` the computed page count equals
`interval * ceil(total_rows / interval)`, written with ceiling division
`(total_rows + interval - 1) / interval`. -/
theorem c4_total_pages_formula (t : Nat) (h : 1 ≤ t) :
    total_pages t = interval * ((t + interval - 1) / interval) := by
  simp only [total_pages, total_pattern_sets, interval]
  split_ifs <;> omega

/-- Claim C4, witness at `total_rows = 13`: `total_pages 13 = 15`. -/
theorem c4_witness :
    total_pages 13 = interval * ((13 + interval - 1) / interval) ∧
    total_pages 13 = 15 :=
  ⟨c4_total_pages_formula 13 (by decide), by decide⟩

/-- Claim C5: for every page, the emitted indices are exactly the prefix of
`(page mod interval) + (page div interval) * interval * responses_per_page
+ col * interval` for `col = 0..responses_per_page-1`, cut at the first
column whose row index reaches `total_rows`; and with `total_rows = 13`
page 0 shows exactly rows 0, 5, 10. -/
theorem c5_row_index_formula (p t : Nat) :
    current_page_indices p t =
      ((List.range responses_per_page).map
        (fun col =>
          p % interval + p / interval * interval * responses_per_page +
            col * interval)).takeWhile (fun r => decide (r < t)) ∧
    current_page_indices 0 13 = [0, 5, 10] := by
  constructor
  · have hf :
        (fun col =>
          p % interval + p / interval * interval * responses_per_page +
            col * interval) = rowIdxFor p := by
      funext c
      rfl
    rw [hf]
    exact pageIndicesGo_eq_takeWhile p t (List.range responses_per_page)
  · decide

/-- Claim C7: the rendering loop never emits (hence never indexes the
dataset at) a row index at or beyond `total_rows`; and a page whose whole
pattern range starts at or beyond `total_rows` emits zero row indices and
turns on the "No responses to display" warning instead of erroring. -/
theorem c7_trailing_page_safe (p t : Nat) :
    (∀ i ∈ current_page_indices p t, i < t) ∧
    (t ≤ rowIdxFor p 0 →
      current_page_indices p t = [] ∧ noResponsesWarning p t = true) := by
  constructor
  · intro i hi
    exact mem_pageIndicesGo_lt hi
  · intro h
    have hempty : current_page_indices p t = [] := by
      show pageIndicesGo p t (List.range responses_per_page) = []
      have hrange : List.range responses_per_page = [0, 1, 2, 3] := rfl
      rw [hrange]
      simp only [pageIndicesGo]
      rw [if_pos h]
    refine ⟨hempty, ?_⟩
    simp [noResponsesWarning, displayedResponses, hempty]

/-- Claim C7, witness: with `total_rows = 13`, page 5's pattern range
starts at row 20 ≥ 13, so the page emits nothing and warns; and on page 0
the emitted row 0 is below 13. -/
theorem c7_witness :
    (0 < (13 : Nat)) ∧
    (current_page_indices 5 13 = [] ∧ noResponsesWarning 5 13 = true) :=
  ⟨(c7_trailing_page_safe 0 13).1 0 (by decide),
   (c7_trailing_page_safe 5 13).2 (by decide)⟩

/-- Claim C10: the rendered page number stays in `0..total_pages-1`: the
clamp resets any out-of-range value to 0, and the guarded previous/next
actions preserve the range. -/
theorem c10_page_range (v page t : Nat) (h : page < total_pages t) :
    clampPage v t < total_pages t ∧
    prevPage page < total_pages t ∧
    nextPage page t < total_pages t := by
  have hp := total_pages_pos t
  unfold clampPage prevPage nextPage
  split_ifs <;> omega

/-- Claim C10, witness at `v = 7`, `page = 0`, `total_rows = 1` (where
`total_pages 1 = 5`). -/
theorem c10_witness :
    (0 < total_pages 1) ∧
    (clampPage 7 1 < total_pages 1 ∧
     prevPage 0 < total_pages 1 ∧
     nextPage 0 1 < total_pages 1) :=
  ⟨by decide, c10_page_range 7 0 1 (by decide)⟩


/-! ## Score Ledger lemmas -/

/-- An entry found in a well-formed dict carries its key as `row_index`. -/
lemma dictLookup_wf :
    ∀ {d : List (Nat × ScoreEntry)}, DictWF d →
      ∀ {r : Nat} {data : ScoreEntry},
        dictLookup r d = some data → data.row_index = r := by
  intro d
  induction d with
  | nil => intro _ r data h; simp [dictLookup] at h
  | cons kv rest ih =>
    intro hwf r data h
    obtain ⟨k, v⟩ := kv
    simp only [dictLookup] at h
    by_cases hk : k = r
    · rw [if_pos hk] at h
      have hv : v.row_index = k := hwf (k, v) (List.mem_cons_self _ _)
      cases h
      omega
    · rw [if_neg hk] at h
      exact ih (fun p hp => hwf p (List.mem_cons_of_mem _ hp)) h

/-- Upserting an entry whose `row_index` is its key either leaves, or
appends to, the ledger's key list. -/
lemma upsertScore_keys {r : Nat} {e : ScoreEntry} (he : e.row_index = r) :
    ∀ l : List ScoreEntry,
      ledgerKeys (upsertScore r e l).1 =
        if r ∈ ledgerKeys l then ledgerKeys l else ledgerKeys l ++ [r] := by
  intro l
  induction l with
  | nil => simp [upsertScore, ledgerKeys, he]
  | cons item rest ih =>
    simp only [upsertScore, ledgerKeys, List.map_cons, List.mem_cons]
    by_cases hit : item.row_index = r
    · rw [if_pos hit]
      simp [ledgerKeys, he, hit]
    · rw [if_neg hit]
      simp only [ledgerKeys, List.map_cons] at ih ⊢
      rw [ih]
      by_cases hmem : r ∈ rest.map (fun e => e.row_index)
      · rw [if_pos hmem, if_pos (by simp [hmem])]
      · rw [if_neg hmem,
          if_neg (by simp [hmem]; omega)]
        simp

/-- The replacement flag of the upsert is the key-membership test. -/
lemma upsertScore_flag (r : Nat) (e : ScoreEntry) :
    ∀ l : List ScoreEntry,
      (upsertScore r e l).2 = true ↔ r ∈ ledgerKeys l := by
  intro l
  induction l with
  | nil => simp [upsertScore, ledgerKeys]
  | cons item rest ih =>
    simp only [upsertScore, ledgerKeys, List.map_cons, List.mem_cons]
    by_cases hit : item.row_index = r
    · rw [if_pos hit]
      simp [hit]
    · rw [if_neg hit]
      simp only [ledgerKeys] at ih
      simp [ih]
      omega

/-- The upsert keeps the length on replacement and grows it by one on
append. -/
lemma upsertScore_length (r : Nat) (e : ScoreEntry) :
    ∀ l : List ScoreEntry,
      (upsertScore r e l).1.length =
        if (upsertScore r e l).2 = true then l.length else l.length + 1 := by
  intro l
  induction l with
  | nil => simp [upsertScore]
  | cons item rest ih =>
    simp only [upsertScore]
    by_cases hit : item.row_index = r
    · rw [if_pos hit]
      simp
    · rw [if_neg hit]
      simp only [List.length_cons, ih]
      split_ifs <;> simp

/-- The upsert preserves distinctness of the ledger keys. -/
lemma upsertScore_nodup {r : Nat} {e : ScoreEntry} (he : e.row_index = r)
    {l : List ScoreEntry} (h : (ledgerKeys l).Nodup) :
    (ledgerKeys (upsertScore r e l).1).Nodup := by
  rw [upsertScore_keys he]
  by_cases hmem : r ∈ ledgerKeys l
  · rw [if_pos hmem]
    exact h
  · rw [if_neg hmem]
    rw [List.nodup_append]
    refine ⟨h, List.nodup_singleton r, ?_⟩
    intro a ha hb
    simp at hb
    subst hb
    exact hmem ha

/-- The per-page save loop preserves distinctness of the ledger keys. -/
lemma savePageLoop_nodup {dict : List (Nat × ScoreEntry)}
    (hwf : DictWF dict) :
    ∀ (idxs : List Nat) (acc : List ScoreEntry),
      (ledgerKeys acc).Nodup → (ledgerKeys (savePageLoop dict idxs acc).1).Nodup := by
  intro idxs
  induction idxs with
  | nil => intro acc h; exact h
  | cons r rs ih =>
    intro acc h
    simp only [savePageLoop]
    cases hl : dictLookup r dict with
    | none => exact ih acc h
    | some data =>
      exact ih _ (upsertScore_nodup (dictLookup_wf hwf hl) h)

/-- The save-all loop preserves distinctness of the ledger keys. -/
lemma saveAllLoop_nodup {unsaved : List Nat} :
    ∀ (d : List (Nat × ScoreEntry)) (acc : List ScoreEntry) (sp : List Nat),
      DictWF d → (ledgerKeys acc).Nodup →
      (ledgerKeys (saveAllLoop unsaved d acc sp).1).Nodup := by
  intro d
  induction d with
  | nil => intro acc sp _ h; exact h
  | cons kv rest ih =>
    intro acc sp hwf h
    obtain ⟨r, data⟩ := kv
    have hrest : DictWF rest := fun p hp => hwf p (List.mem_cons_of_mem _ hp)
    have hdata : data.row_index = r := hwf (r, data) (List.mem_cons_self _ _)
    simp only [saveAllLoop]
    by_cases hpg : data.page ∈ unsaved
    · rw [if_pos hpg]
      exact ih _ _ hrest (upsertScore_nodup hdata h)
    · rw [if_neg hpg]
      exact ih _ _ hrest h

/-- Inserting under its own key preserves dict well-formedness. -/
lemma dictInsert_wf {r : Nat} {e : ScoreEntry} (he : e.row_index = r)
    {d : List (Nat × ScoreEntry)} (hwf : DictWF d) :
    DictWF (dictInsert r e d) := by
  induction d with
  | nil =>
    intro p hp
    simp [dictInsert] at hp
    subst hp
    exact he
  | cons kv rest ih =>
    obtain ⟨k, v⟩ := kv
    have hrest : DictWF rest := fun p hp => hwf p (List.mem_cons_of_mem _ hp)
    simp only [dictInsert]
    by_cases hk : k = r
    · rw [if_pos hk]
      intro p hp
      rcases List.mem_cons.mp hp with h1 | h2
      · subst h1; exact he
      · exact hrest p h2
    · rw [if_neg hk]
      intro p hp
      rcases List.mem_cons.mp hp with h1 | h2
      · subst h1; exact hwf (k, v) (List.mem_cons_self _ _)
      · exact ih hrest p h2

/-- The rendering loop's recording pass preserves dict well-formedness. -/
lemma renderPage_wf (t : Nat) (qidOf llmOf : Nat → String)
    (scoreOf : Nat → Nat) (s : AppState) (hwf : DictWF s.scores_dict) :
    DictWF (renderPage t qidOf llmOf scoreOf s).scores_dict := by
  unfold renderPage
  have hgen :
      ∀ (l : List Nat) (d : List (Nat × ScoreEntry)), DictWF d →
        DictWF (l.foldl
          (fun d2 r =>
            dictInsert r (renderEntry s.current_page r qidOf llmOf scoreOf) d2)
          d) := by
    intro l
    induction l with
    | nil => intro d hd; exact hd
    | cons r rs ih =>
      intro d hd
      simp only [List.foldl_cons]
      exact ih _
        (@dictInsert_wf r (renderEntry s.current_page r qidOf llmOf scoreOf)
          rfl d hd)
  exact hgen _ _ hwf

/-- The per-page save handler preserves the session invariant. -/
lemma savePageHandler_inv {t : Nat} {s : AppState} (h : SessionInv s) :
    SessionInv (savePageHandler t s).1 :=
  ⟨h.1, savePageLoop_nodup h.1 _ _ h.2⟩

/-- The save-all handler preserves the session invariant. -/
lemma saveAllHandler_inv {t : Nat} {s : AppState} (h : SessionInv s) :
    SessionInv (saveAllHandler t s).1 :=
  ⟨h.1, saveAllLoop_nodup _ _ _ h.1 h.2⟩

/-- Every interaction preserves the session invariant. -/
lemma applyOp_inv (t : Nat) (op : AppOp) {s : AppState} (h : SessionInv s) :
    SessionInv (applyOp t op s) := by
  cases op with
  | render qidOf llmOf scoreOf =>
    exact ⟨renderPage_wf t qidOf llmOf scoreOf s h.1, h.2⟩
  | savePage => exact savePageHandler_inv h
  | saveAll => exact saveAllHandler_inv h
  | goPrev => exact h
  | goNext => exact h
  | clampOp => exact h

/-- The invariant holds after any interaction sequence from startup. -/
lemma runOps_inv (t : Nat) (ops : List AppOp) : SessionInv (runOps t ops) := by
  have hgen : ∀ (l : List AppOp) (s : AppState), SessionInv s →
      SessionInv (l.foldl (fun s2 op => applyOp t op s2) s) := by
    intro l
    induction l with
    | nil => intro s hs; exact hs
    | cons op ops2 ih =>
      intro s hs
      simp only [List.foldl_cons]
      exact ih _ (applyOp_inv t op hs)
  refine hgen ops initialState ⟨?_, ?_⟩
  · intro p hp
    simp [initialState] at hp
  · simp [initialState, ledgerKeys]

/-- The per-page save's reported count is the number of current-page
indices with a recorded entry, whether the upsert replaced or appended. -/
lemma savePageLoop_count (dict : List (Nat × ScoreEntry)) :
    ∀ (idxs : List Nat) (acc : List ScoreEntry),
      (savePageLoop dict idxs acc).2 =
        (idxs.filter (fun r => (dictLookup r dict).isSome)).length := by
  intro idxs
  induction idxs with
  | nil => intro acc; rfl
  | cons r rs ih =>
    intro acc
    simp only [savePageLoop, List.filter_cons]
    cases hl : dictLookup r dict with
    | none => simp [ih]
    | some data => simp [ih]

/-- The save-all loop's reported count is exactly the growth of the
exportable list: replacements in place are not counted. -/
lemma saveAllLoop_length (unsaved : List Nat) :
    ∀ (d : List (Nat × ScoreEntry)) (acc : List ScoreEntry) (sp : List Nat),
      (saveAllLoop unsaved d acc sp).1.length =
        acc.length + (saveAllLoop unsaved d acc sp).2.2 := by
  intro d
  induction d with
  | nil => intro acc sp; simp [saveAllLoop]
  | cons kv rest ih =>
    intro acc sp
    obtain ⟨r, data⟩ := kv
    simp only [saveAllLoop]
    by_cases hpg : data.page ∈ unsaved
    · rw [if_pos hpg]
      have hup := upsertScore_length r data acc
      have hrec := ih (upsertScore r data acc).1 (insertPage data.page sp)
      cases hflag : (upsertScore r data acc).2 <;> simp_all
      all_goals omega
    · rw [if_neg hpg]
      exact ih acc sp

/-- When no dict entry lies on an unsaved page, the save-all loop is the
identity on the ledger and the saved set, and reports zero. -/
lemma saveAllLoop_skip {unsaved : List Nat} :
    ∀ (d : List (Nat × ScoreEntry)) (acc : List ScoreEntry) (sp : List Nat),
      (∀ p ∈ d, p.2.page ∉ unsaved) →
      saveAllLoop unsaved d acc sp = (acc, sp, 0) := by
  intro d
  induction d with
  | nil => intro acc sp _; rfl
  | cons kv rest ih =>
    intro acc sp h
    obtain ⟨r, data⟩ := kv
    simp only [saveAllLoop]
    rw [if_neg (h (r, data) (List.mem_cons_self _ _))]
    exact ih acc sp (fun p hp => h p (List.mem_cons_of_mem _ hp))

/-- Looking up in a dict after an insert. -/
lemma dictLookup_dictInsert (r r2 : Nat) (e : ScoreEntry) :
    ∀ d : List (Nat × ScoreEntry),
      dictLookup r2 (dictInsert r e d) =
        if r2 = r then some e else dictLookup r2 d := by
  intro d
  induction d with
  | nil =>
    simp only [dictInsert, dictLookup]
    split_ifs <;> first | rfl | omega
  | cons kv rest ih =>
    obtain ⟨k, v⟩ := kv
    simp only [dictInsert]
    by_cases hk : k = r
    · rw [if_pos hk]
      subst hk
      simp only [dictLookup]
      split_ifs <;> first | rfl | omega
    · rw [if_neg hk]
      simp only [dictLookup, ih]
      split_ifs <;> first | rfl | omega

/-- After folding the rendering inserts over a list of rows, every listed
row (and every row already present) has a recorded entry. -/
lemma foldl_dictInsert_lookup (f : Nat → ScoreEntry) :
    ∀ (l : List Nat) (d : List (Nat × ScoreEntry)) (r : Nat),
      (r ∈ l ∨ (dictLookup r d).isSome = true) →
      (dictLookup r
        (l.foldl (fun d2 r2 => dictInsert r2 (f r2) d2) d)).isSome = true := by
  intro l
  induction l with
  | nil =>
    intro d r h
    rcases h with h | h
    · simp at h
    · exact h
  | cons c cs ih =>
    intro d r h
    simp only [List.foldl_cons]
    apply ih
    by_cases hrc : r = c
    · right
      rw [dictLookup_dictInsert, if_pos hrc]
      rfl
    · rcases h with h | h
      · rcases List.mem_cons.mp h with h1 | h2
        · omega
        · left
          exact h2
      · right
        rw [dictLookup_dictInsert, if_neg hrc]
        exact h

/-- When every requested index has a recorded entry, the per-page save
touches all of them. -/
lemma savePageLoop_count_all {dict : List (Nat × ScoreEntry)} :
    ∀ (idxs : List Nat) (acc : List ScoreEntry),
      (∀ r ∈ idxs, (dictLookup r dict).isSome = true) →
      (savePageLoop dict idxs acc).2 = idxs.length := by
  intro idxs
  induction idxs with
  | nil => intro acc _; rfl
  | cons r rs ih =>
    intro acc h
    have hr := h r (List.mem_cons_self _ _)
    simp only [savePageLoop]
    cases hl : dictLookup r dict with
    | none => rw [hl] at hr; simp at hr
    | some data =>
      simp only [List.length_cons]
      rw [ih _ (fun q hq => h q (List.mem_cons_of_mem _ hq))]

/-! ## Claim theorems: Score Ledger -/

/-- Claim C2: after any sequence of interactions from startup (each page
render records scores, the two save buttons flush them), the exportable
ledger holds at most one entry per identity key (`row_index`); moreover an
upsert for a key already present overwrites that entry in place - the key
list and the length are unchanged - rather than appending a duplicate. -/
theorem c2_at_most_one_entry_per_key (t : Nat) (ops : List AppOp) :
    (ledgerKeys (runOps t ops).all_scores).Nodup ∧
    (∀ (r : Nat) (e : ScoreEntry) (l : List ScoreEntry),
      e.row_index = r → r ∈ ledgerKeys l →
        ledgerKeys (upsertScore r e l).1 = ledgerKeys l ∧
        (upsertScore r e l).1.length = l.length) := by
  refine ⟨(runOps_inv t ops).2, ?_⟩
  intro r e l he hmem
  constructor
  · rw [upsertScore_keys he, if_pos hmem]
  · rw [upsertScore_length, if_pos ((upsertScore_flag r e l).mpr hmem)]

/-- Claim C2, witness: overwriting the already-exported entry for row 0
keeps one entry and the length; the ledger after a save-all from a
rendered state has distinct keys. -/
theorem c2_witness :
    ((sampleEntry 0 2).row_index = 0 ∧
     0 ∈ ledgerKeys [sampleEntry 0 4] ∧
     ledgerKeys (upsertScore 0 (sampleEntry 0 2) [sampleEntry 0 4]).1 =
       ledgerKeys [sampleEntry 0 4] ∧
     (upsertScore 0 (sampleEntry 0 2) [sampleEntry 0 4]).1.length =
       ([sampleEntry 0 4]).length) ∧
    (ledgerKeys (runOps 1 [AppOp.render (fun _ => "Q1") (fun _ => "gpt")
        (fun _ => 3), AppOp.saveAll]).all_scores).Nodup := by
  constructor
  · refine ⟨rfl, by decide, ?_⟩
    exact (c2_at_most_one_entry_per_key 1 []).2 0 (sampleEntry 0 2)
      [sampleEntry 0 4] rfl (by decide)
  · exact (c2_at_most_one_entry_per_key 1
      [AppOp.render (fun _ => "Q1") (fun _ => "gpt") (fun _ => 3),
       AppOp.saveAll]).1

/-- Claim C3: recording score `sc1` for the dataset row with identity
`(question_id = "Q1", llm = "gpt")`, then recording score `sc2` for the
same row, then saving the page, leaves the exportable list with exactly
one entry for that key, holding `sc2`; and saving after each of the two
records (two saves, different scores) likewise yields one exportable
entry holding the second score. -/
theorem c3_second_score_wins (sc1 sc2 : Nat) :
    (savePageHandler 1
        (recordScore 0 (sampleEntry 0 sc2)
          (recordScore 0 (sampleEntry 0 sc1) initialState))).1.all_scores =
      [sampleEntry 0 sc2] ∧
    (savePageHandler 1
        (recordScore 0 (sampleEntry 0 sc2)
          (savePageHandler 1
            (recordScore 0 (sampleEntry 0 sc1)
              initialState)).1)).1.all_scores =
      [sampleEntry 0 sc2] := by
  constructor <;>
    simp [savePageHandler, recordScore, initialState, savePageLoop,
      dictInsert, dictLookup, upsertScore, current_page_indices,
      pageIndicesGo, rowIdxFor, pattern_idx, pattern_set, interval,
      responses_per_page, insertPage, sampleEntry, List.range_succ]

/-- Claim C6, counterexample: in `cexState` row 0 has a recorded entry
(score 2) on the unsaved page 0 and is already present in the exportable
ledger (score 4); the save-all handler touches that entry - it replaces it
in place, changing the ledger - yet reports 0 touched and shows the
"No unsaved scores to save." info message instead of counting the upsert
as the claim states. -/
theorem c6_counterexample :
    (saveAllHandler 1 cexState).1.all_scores = [sampleEntry 0 2] ∧
    sampleEntry 0 2 ≠ sampleEntry 0 4 ∧
    (saveAllHandler 1 cexState).2.1 = 0 ∧
    (saveAllHandler 1 cexState).2.2 = MsgKind.infoMsg := by
  refine ⟨rfl, ?_, rfl, rfl⟩
  intro h
  simp [sampleEntry] at h

/-- Claim C6, amended: the per-page save reports the number of entries it
touched - every current-page index with a recorded entry, whether the
upsert replaced or appended - while the save-all handler reports only the
number of entries newly appended to the exportable list (its growth in
length); entries it replaces in place are not counted. -/
theorem c6_amended_save_counts (t : Nat) (s : AppState) :
    (savePageHandler t s).2.1 =
      ((current_page_indices s.current_page t).filter
        (fun r => (dictLookup r s.scores_dict).isSome)).length ∧
    (saveAllHandler t s).1.all_scores.length =
      s.all_scores.length + (saveAllHandler t s).2.1 := by
  exact ⟨savePageLoop_count s.scores_dict _ s.all_scores,
    saveAllLoop_length _ s.scores_dict s.all_scores s.saved_pages⟩

/-- Claim C8: when no recorded entry lies on an unsaved page (in
particular when nothing was recorded at all), the save-all handler leaves
the whole session state unchanged, reports zero saved, and surfaces the
informational message - not the error one - so processing continues. -/
theorem c8_empty_save_all_informational (t : Nat) (s : AppState)
    (h : ∀ p ∈ s.scores_dict,
      p.2.page ∈ s.saved_pages ∨ total_pages t ≤ p.2.page) :
    saveAllHandler t s = (s, 0, MsgKind.infoMsg) := by
  have hskip : ∀ p ∈ s.scores_dict,
      p.2.page ∉ (List.range (total_pages t)).filter
        (fun q => decide (q ∉ s.saved_pages)) := by
    intro p hp hmem
    have hm := List.mem_filter.mp hmem
    rcases h p hp with h1 | h2
    · simp at hm
      exact hm.2 h1
    · have := List.mem_range.mp hm.1
      omega
  show (_, _, _) = (_, _, _)
  rw [saveAllLoop_skip _ _ _ hskip]
  rfl

/-- Claim C8, witness: at startup nothing is recorded, so save-all is the
identity, reports zero and shows the info message. -/
theorem c8_witness :
    (∀ p ∈ initialState.scores_dict,
      p.2.page ∈ initialState.saved_pages ∨ total_pages 1 ≤ p.2.page) ∧
    saveAllHandler 1 initialState = (initialState, 0, MsgKind.infoMsg) :=
  ⟨by simp [initialState],
   c8_empty_save_all_informational 1 initialState (by simp [initialState])⟩

/-- Claim C9: whenever the per-page save button is shown (at least one
response was displayed), the rendering pass that just ran has recorded an
entry for every displayed row, so the per-page save touches exactly the
displayed rows - at least one - and reports success; its
"No scores to save." error branch is unreachable. -/
theorem c9_page_save_error_unreachable (t : Nat) (qidOf llmOf : Nat → String)
    (scoreOf : Nat → Nat) (s : AppState)
    (h : 0 < displayedResponses s.current_page t) :
    (savePageHandler t (renderPage t qidOf llmOf scoreOf s)).2.1 =
      displayedResponses s.current_page t ∧
    (savePageHandler t (renderPage t qidOf llmOf scoreOf s)).2.2 =
      MsgKind.success := by
  have hall : ∀ r ∈ current_page_indices s.current_page t,
      (dictLookup r
        (renderPage t qidOf llmOf scoreOf s).scores_dict).isSome = true := by
    intro r hr
    exact foldl_dictInsert_lookup
      (fun r2 => renderEntry s.current_page r2 qidOf llmOf scoreOf)
      (current_page_indices s.current_page t) s.scores_dict r (Or.inl hr)
  have hcount : (savePageLoop
      (renderPage t qidOf llmOf scoreOf s).scores_dict
      (current_page_indices s.current_page t)
      (renderPage t qidOf llmOf scoreOf s).all_scores).2 =
      displayedResponses s.current_page t :=
    savePageLoop_count_all _ _ hall
  refine ⟨hcount, ?_⟩
  have hmsg : (savePageHandler t (renderPage t qidOf llmOf scoreOf s)).2.2 =
      if (savePageLoop
        (renderPage t qidOf llmOf scoreOf s).scores_dict
        (current_page_indices s.current_page t)
        (renderPage t qidOf llmOf scoreOf s).all_scores).2 > 0
      then MsgKind.success else MsgKind.errorMsg := rfl
  rw [hmsg, hcount, if_pos h]

/-- Claim C9, witness: with one dataset row on page 0, the rendered page
records row 0, and the per-page save touches it and succeeds. -/
theorem c9_witness :
    0 < displayedResponses initialState.current_page 1 ∧
    ((savePageHandler 1 (renderPage 1 (fun _ => "Q1") (fun _ => "gpt")
        (fun _ => 3) initialState)).2.1 =
      displayedResponses initialState.current_page 1 ∧
     (savePageHandler 1 (renderPage 1 (fun _ => "Q1") (fun _ => "gpt")
        (fun _ => 3) initialState)).2.2 = MsgKind.success) :=
  ⟨by decide,
   c9_page_save_error_unreachable 1 (fun _ => "Q1") (fun _ => "gpt")
     (fun _ => 3) initialState (by decide)⟩
